import Mathlib

/-!
A verification development for the gotohugo converter (gotohugo.go).

The converter core is embedded shallowly:

* lines are `List Char` (`Line`);
* the Go regexps used by the line classifiers are compiled into a small
  regular-expression evaluator (`RE`, `reRun`) with Go's leftmost-first,
  greedy-priority semantics, so that `FindString(..) != ""` and
  `ReplaceAllString(.., "")` are derived operations rather than ad-hoc
  re-implementations (all the classifier patterns can only match nonempty
  text, so a match exists iff `FindString` returns a nonempty string);
* the state machine `convert` is a fold over the split input lines producing
  a list of emission fragments (`Frag`); every `out +=` in the source is one
  fragment, with the structural shortcode markers produced by `div`/`divEnd`
  tagged as `mOpen`/`mClose`, the announcement shortcode tagged `announce`,
  and the three code-fence literals tagged as fence fragments; rendering and
  concatenating the fragments yields the output string of the source;
* file access by `getHTMLSnippet` (`ioutil.ReadFile`) is an explicit
  parameter `fs : Line → Except Line Line` (error text or file content), and
  the globals `*outDir`, `mediaDir`, `publicMediaDir` are explicit arguments.
-/

namespace Gotohugo

/-- A line (or any piece) of text, as a list of characters. -/
abbrev Line := List Char

/-! ## Generic text helpers -/

/-- Whether `p` is a prefix of `s` (decidable, by direct recursion). -/
def startsW : Line → Line → Bool
  | [], _ => true
  | _ :: _, [] => false
  | p :: ps, c :: cs => p = c && startsW ps cs

/-- Whether `p` occurs as a contiguous substring of `s` (Go `strings.Contains`). -/
def containsSub (p : Line) : Line → Bool
  | [] => startsW p []
  | s@(_ :: cs) => startsW p s || containsSub p cs

/-- Split at newline characters (Go `strings.Split(s, "\n")`). -/
def splitNl : Line → List Line
  | [] => [[]]
  | c :: cs =>
    if c = '\n' then [] :: splitNl cs
    else match splitNl cs with
      | [] => [[c]]
      | h :: t => (c :: h) :: t

/-- Remove every carriage return (Go `strings.Replace(s, "\r", "", -1)`). -/
def removeCR (s : Line) : Line := s.filter (fun c => c ≠ '\r')

/-- Trim tab characters from both ends (Go `strings.Trim(line, "\t\t")`,
whose cut set is the single character tab). -/
def trimTabs (s : Line) : Line :=
  ((s.dropWhile (fun c => c = '\t')).reverse.dropWhile (fun c => c = '\t')).reverse

/-- Go `filepath.Join` on simple components: empty components are dropped and
the rest are joined with a slash (the additional path cleaning performed by
`filepath.Clean` is the identity on such components). -/
def goJoin (ps : List Line) : Line :=
  List.intercalate ['/'] (ps.filter (fun p => p ≠ []))

/-! ## A small regular-expression evaluator

Just enough of RE2's surface to express the patterns of the source:
character classes, literals, `*` over a class, alternation, `^` and `$`.
`reRun re atStart s` returns the list of `(atStart', suffix)` outcomes of
matching `re` against a prefix of `s`, in Go's backtracking priority order
(greedy quantifiers longest first, left alternative first), where `atStart`
records whether `s` begins at position 0 of the original subject text. -/

inductive RE where
  | eps : RE
  | lit : Char → RE
  | cls : (Char → Bool) → RE
  | starCls : (Char → Bool) → RE
  | bol : RE
  | eol : RE
  | seq : RE → RE → RE
  | alt : RE → RE → RE

/-- Run a pattern at the start of `s`; results in priority order. -/
def reRun : RE → Bool → Line → List (Bool × Line)
  | .eps, at0, s => [(at0, s)]
  | .lit c, _, [] => (fun _ => []) c
  | .lit c, _, x :: xs => if x = c then [(false, xs)] else []
  | .cls p, _, [] => (fun _ => []) p
  | .cls p, _, x :: xs => if p x then [(false, xs)] else []
  | .starCls p, at0, s =>
    let n := (s.takeWhile p).length
    ((List.range (n + 1)).reverse).map (fun k => (at0 && decide (k = 0), s.drop k))
  | .bol, at0, s => if at0 then [(at0, s)] else []
  | .eol, at0, s => if s = [] then [(at0, s)] else []
  | .seq a b, at0, s => (reRun a at0 s).flatMap (fun r => reRun b r.1 r.2)
  | .alt a b, at0, s => reRun a at0 s ++ reRun b at0 s

/-- Whether the pattern matches anywhere in `s` (`atStart` says whether `s`
is the whole subject). For patterns that cannot match the empty string this
is exactly Go's `re.FindString(s) != ""`. -/
def reHas (re : RE) : Bool → Line → Bool
  | at0, [] => decide (reRun re at0 [] ≠ [])
  | at0, s@(_ :: cs) => decide (reRun re at0 s ≠ []) || reHas re false cs

/-- One pass of `ReplaceAllString(s, repl)`: at each position try the
pattern (leftmost position wins, priority-first match extent), replace and
continue after the match, otherwise keep the character and advance. `fuel`
bounds the recursion; `fuel = s.length + 1` is enough because every step
either consumes input or ends the string. -/
def replaceAllFuel (re : RE) (repl : Line) : Nat → Bool → Line → Line
  | 0, _, s => s
  | _ + 1, at0, [] =>
    match (reRun re at0 []).head? with
    | some _ => repl
    | none => []
  | fuel + 1, at0, s@(c :: cs) =>
    match (reRun re at0 s).head? with
    | some r =>
      if r.2.length < s.length then repl ++ replaceAllFuel re repl fuel false r.2
      else c :: replaceAllFuel re repl fuel false cs
    | none => c :: replaceAllFuel re repl fuel false cs

/-- Go `re.ReplaceAllString(s, repl)` (for the delimiter-stripping patterns,
which never match the empty string). -/
def reReplaceAll (re : RE) (repl : Line) (s : Line) : Line :=
  replaceAllFuel re repl (s.length + 1) true s

/-! ## The classifier patterns (gotohugo.go lines 166-175) -/

/-- RE2 `\s`: space, tab, newline, form feed, carriage return. -/
def wsP (c : Char) : Bool :=
  c = ' ' || c = '\t' || c = '\n' || c = '\x0c' || c = '\r'

/-- `\s?` as a pattern (greedy: prefer consuming one whitespace char). -/
def optWs : RE := .alt (.cls wsP) .eps

/-- commentPtrn: the source text between backticks compiles to
bol, whitespace star, slash, slash, optional whitespace. -/
def commentRE : RE :=
  .seq .bol (.seq (.starCls wsP) (.seq (.lit '/') (.seq (.lit '/') optWs)))

/-- commentStartPtrn: bol, whitespace star, slash, star, optional whitespace. -/
def commentStartRE : RE :=
  .seq .bol (.seq (.starCls wsP) (.seq (.lit '/') (.seq (.lit '*') optWs)))

/-- commentEndPtrn: whitespace star, star, slash, whitespace star, eol. -/
def commentEndRE : RE :=
  .seq (.starCls wsP) (.seq (.lit '*') (.seq (.lit '/') (.seq (.starCls wsP) .eol)))

/-- The left alternative of frontmatterPtrn: bol, whitespace star, three
pluses (the `\s*` binds to this alternative only). -/
def frontPlusRE : RE :=
  .seq .bol (.seq (.starCls wsP) (.seq (.lit '+') (.seq (.lit '+') (.lit '+'))))

/-- The right alternative of frontmatterPtrn: three dashes, whitespace star,
eol (the trailing `\s*$` binds to this alternative only). -/
def frontDashRE : RE :=
  .seq (.lit '-') (.seq (.lit '-') (.seq (.lit '-') (.seq (.starCls wsP) .eol)))

/-- frontmatterPtrn: the alternation groups as
(bol, whitespace star, three pluses) or (three dashes, whitespace star, eol). -/
def frontmatterRE : RE := .alt frontPlusRE frontDashRE

/-- preformatPtrn: a backtick anywhere, or bol and four-or-more spaces, or
bol, tab, whitespace star. -/
def preformatRE : RE :=
  .alt (.cls (fun c => c = '\x60'))
    (.alt
      (.seq .bol (.seq (.lit ' ') (.seq (.lit ' ') (.seq (.lit ' ')
        (.seq (.lit ' ') (.starCls (fun c => c = ' ')))))))
      (.seq .bol (.seq (.lit '\t') (.starCls wsP))))

/-- Whether the pattern matches somewhere in the line
(`re.FindString(line) != ""`; all these patterns only match nonempty text). -/
def reFound (re : RE) (l : Line) : Bool := reHas re true l

/-- isLineComment (gotohugo.go line 206). -/
def isLineComment (l : Line) : Bool := reFound commentRE l

/-- isCommentStart (line 211). -/
def isCommentStart (l : Line) : Bool := reFound commentStartRE l

/-- isCommentEnd (line 216). -/
def isCommentEnd (l : Line) : Bool := reFound commentEndRE l

/-- isFrontmatterDelim (line 222). -/
def isFrontmatterDelim (l : Line) : Bool := reFound frontmatterRE l

/-- isSummaryDivider (line 227): substring test for the divider token. -/
def isSummaryDivider (l : Line) : Bool := containsSub ("<!--more-->").data l

/-- isPreformatted (line 231). -/
def isPreformatted (l : Line) : Bool := reFound preformatRE l

/-- `commentRe.ReplaceAllString(line, "")` (lines 472, 482, 505). -/
def stripLineComment (l : Line) : Line := reReplaceAll commentRE [] l

/-- `commentStart.ReplaceAllString(line, "")` (line 518). -/
def stripCommentStart (l : Line) : Line := reReplaceAll commentStartRE [] l

/-! ## Path rewriting (extendPath / extendSrc / extendImagePath)

The two rewriting regexps `imagePtrn` and `srcPtrn` contain capturing groups
and lazy quantifiers; their `ReplaceAllString` calls are compiled here into
dedicated scanners with Go's leftmost-first semantics.

`srcPtrn` is `(src=")(.*\.hyperesources/)`: group 2 is greedy, contains no
newline, and extends to the last possible occurrence of `.hyperesources/`.

`imagePtrn` is `(!\[[^\]]+\]\( *)([^"\)]*?)(.*?\))`: group 1 is the tag
opener through the run of spaces after the parenthesis; group 2 is lazy and
unforced, so it always captures the empty string; group 3 is everything up
to and including the first closing parenthesis (with no newline before it).

The replacement templates are `"$1" + extendPath("$2", basename)` (and
`+ "$3"` for images), where `extendPath(f, b)` is
`os.PathSeparator + filepath.Join(publicMediaDir, b, f)` computed on the
literal string `"$2"`; below the templates are expanded at each match
(`$1`, `$2`, `$3` become the captured texts), which is the behaviour of
Go's `Regexp.expand` for base names without a dollar sign. -/

/-- Whether `p` is a suffix of `s`. -/
def endsW (p s : Line) : Bool := startsW p.reverse s.reverse

/-- The largest `k ≤ s.length` such that `s.take k` ends with `pat`. -/
def lastEndPos (pat s : Line) : Option Nat :=
  (List.range (s.length + 1)).reverse.find? (fun k => endsW pat (s.take k))

/-- Leftmost match of `srcPtrn`: returns `(pre, g2, post)` where the match
is `pre ++ "src=\"" ++ g2` followed by `post`. -/
def findSrc? : Line → Option (Line × Line × Line)
  | [] => Option.none
  | s@(c :: cs) =>
    if startsW ("src=\"").data s then
      let rest := s.drop 5
      let reg := rest.takeWhile (fun x => x ≠ '\n')
      match lastEndPos (".hyperesources/").data reg with
      | some k => some ([], reg.take k, rest.drop k)
      | none => (findSrc? cs).map (fun r => (c :: r.1, r.2.1, r.2.2))
    else (findSrc? cs).map (fun r => (c :: r.1, r.2.1, r.2.2))

/-- All replacements of `srcPtrn` (fuel-bounded; each match is nonempty so
`s.length + 1` rounds of fuel always suffice). -/
def srcGo (b pub : Line) : Nat → Line → Line
  | 0, s => s
  | fuel + 1, s =>
    match findSrc? s with
    | Option.none => s
    | some r =>
      r.1 ++ ("src=\"").data ++ '/' :: goJoin [pub, b, r.2.1] ++ srcGo b pub fuel r.2.2

/-- extendSrc (gotohugo.go line 244). -/
def extendSrc (src b pub : Line) : Line := srcGo b pub (src.length + 1) src

/-- The expansion of `extendPath("$2", b)` at a match of `imagePtrn`, where
group 2 is always empty: a slash, then `filepath.Join(publicMediaDir, b)`
followed by a slash when that join is nonempty. -/
def extendPathEmpty (b pub : Line) : Line :=
  let pj := goJoin [pub, b]
  '/' :: (if pj = [] then [] else pj ++ ['/'])

/-- Match of `imagePtrn` exactly at the start of `s`:
`(group1, group3, rest)`. -/
def imageHere? (s : Line) : Option (Line × Line × Line) :=
  if startsW ("![").data s then
    let after := s.drop 2
    let alt := after.takeWhile (fun x => x ≠ ']')
    if alt = [] then Option.none
    else if startsW ("](").data (after.drop alt.length) then
      let rest2 := after.drop (alt.length + 2)
      let sp := rest2.takeWhile (fun x => x = ' ')
      let rest3 := rest2.drop sp.length
      let t := rest3.takeWhile (fun x => x ≠ ')' && x ≠ '\n')
      if t.length < rest3.length && (rest3.drop t.length).headD ' ' = ')' then
        some ('!' :: '[' :: alt ++ ']' :: '(' :: sp, t ++ [')'], rest3.drop (t.length + 1))
      else Option.none
    else Option.none
  else Option.none

/-- Leftmost match of `imagePtrn`: `(pre, group1, group3, post)`. -/
def findImage? : Line → Option (Line × Line × Line × Line)
  | [] => Option.none
  | s@(c :: cs) =>
    match imageHere? s with
    | some r => some ([], r.1, r.2.1, r.2.2)
    | Option.none =>
      (findImage? cs).map (fun r => (c :: r.1, r.2.1, r.2.2.1, r.2.2.2))

/-- All replacements of `imagePtrn` (fuel-bounded as for `srcGo`). -/
def imageGo (b pub : Line) : Nat → Line → Line
  | 0, s => s
  | fuel + 1, s =>
    match findImage? s with
    | Option.none => s
    | some r => r.1 ++ r.2.1 ++ extendPathEmpty b pub ++ r.2.2.1 ++ imageGo b pub fuel r.2.2.2

/-- extendImagePath (gotohugo.go line 252). -/
def extendImagePath (line b pub : Line) : Line :=
  if isPreformatted line then line else imageGo b pub (line.length + 1) line

/-! ## The resource snippet loader (getHTMLSnippet, lines 283-310) -/

/-- The start marker of the snippet region. -/
def snipStart : Line := ("<!-- copy these lines to your document: -->").data

/-- The end marker of the snippet region. -/
def snipEnd : Line := ("<!-- end copy -->").data

/-- The loop of `getHTMLSnippet` over the split lines of the file: a start
marker turns collection on (the marker line itself is skipped); an end
marker while collecting stops the loop; an end marker before any start
marker is skipped; collected lines are trimmed of tabs, src-rewritten and
newline-terminated; the final output gets one extra newline. -/
def snippetScan (b pub : Line) : Bool → List Line → Line
  | _, [] => ['\n']
  | insnip, l :: ls =>
    if containsSub snipStart l then snippetScan b pub true ls
    else if containsSub snipEnd l then
      if insnip then ['\n'] else snippetScan b pub false ls
    else if insnip then extendSrc (trimTabs l) b pub ++ '\n' :: snippetScan b pub true ls
    else snippetScan b pub insnip ls

/-- getHTMLSnippet: reads the file through the explicit file system `fs`;
an unreadable file produces the wrapped warning text
(`errors.Wrap(err, msg).Error()` is `msg + ": " + err.Error()`). -/
def getHTMLSnippet (fs : Line → Except Line Line) (path b pub : Line) : Line :=
  match fs path with
  | .error e =>
    ("**No Hype file found at ").data ++ path ++
      (". Please run gotohugo again after creating the Hype animation HTML export.").data ++
      (": ").data ++ e
  | .ok content => snippetScan b pub false (splitNl (removeCR content))

/-! ## replaceHypeTag (lines 320-338) -/

/-- Match of `hypePtrn` (`HYPE\[[^\]]+\]\( *([^\)]+) *\)`) exactly at the
start of `s`: `(full match, captured path)`. The leading space run inside
the parentheses is consumed greedily, except that when the parenthesised
text is entirely spaces the mandatory group backtracks to keep one space. -/
def hypeHere? (s : Line) : Option (Line × Line) :=
  if startsW ("HYPE[").data s then
    let after := s.drop 5
    let alt := after.takeWhile (fun x => x ≠ ']')
    if alt = [] then Option.none
    else if startsW ("](").data (after.drop alt.length) then
      let rest := after.drop (alt.length + 2)
      let t := rest.takeWhile (fun x => x ≠ ')')
      if t = [] then Option.none
      else if t.length < rest.length then
        let p := t.dropWhile (fun x => x = ' ')
        some (("HYPE[").data ++ alt ++ ']' :: '(' :: t ++ [')'],
          if p = [] then [' '] else p)
      else Option.none
    else Option.none
  else Option.none

/-- Leftmost match of `hypePtrn` in the line. -/
def hypeFind? : Line → Option (Line × Line)
  | [] => Option.none
  | s@(_ :: cs) =>
    match hypeHere? s with
    | some r => some r
    | Option.none => hypeFind? cs

/-- `hypeTag.FindStringSubmatch(line)`: either no match (empty list) or the
full match followed by the one captured group. -/
def hypeFindSubmatch (l : Line) : List Line :=
  match hypeFind? l with
  | Option.none => []
  | some r => [r.1, r.2]

/-- The fixed noscript fallback line appended after a substituted snippet. -/
def noscriptSuffix : Line :=
  ("<noscript class=\"nohype\"><em>Please enable JavaScript to view the animation.</em></noscript>\n").data

/-- The error text built by `errors.New` in `replaceHypeTag`. -/
def hypeErrText (l : Line) : Line :=
  ("Error: Found Hype tag but no valid path, in line:\n").data ++ l

/-- replaceHypeTag: returns `(out, found, err)`. The error branch mirrors
the source's `len(matches) < 2` test on the submatch list. -/
def replaceHypeTag (fs : Line → Except Line Line) (outD mediaD pub : Line)
    (line b : Line) : Line × Bool × Option Line :=
  if isPreformatted line then (line, false, Option.none)
  else
    match hypeFindSubmatch line with
    | [] => (line, false, Option.none)
    | [_] => ([], false, some (hypeErrText line))
    | _ :: path :: _ =>
      (getHTMLSnippet fs (goJoin [outD, mediaD, b, path]) b pub ++ noscriptSuffix,
        true, Option.none)

/-! ## The conversion state machine (convert, lines 353-556)

Output is modelled as a list of emission fragments, one per `out +=` in the
source; `renderFrag` maps each fragment to the exact text the source
appends, so concatenating the rendered fragments is the returned string.
The structural shortcode markers produced by `div`/`divEnd` are tagged
`mOpen`/`mClose` with their name, the announcement shortcode is `announce`,
and the three code-fence literals are tagged fence fragments. -/

/-- One emission fragment of the output buffer. -/
inductive Frag where
  | text : Line → Frag
  | mOpen : String → Frag
  | mClose : String → Frag
  | announce : Frag
  | fenceOpen : Frag
  | fenceClose : Frag
  | fenceCloseEOF : Frag
deriving DecidableEq

/-- Marker name used for the document wrapper div. -/
def gotohugoN : String := "gotohugo"

/-- Marker name for the summary div. -/
def summaryN : String := "summary doc"

/-- Marker name for the intro div. -/
def introN : String := "intro doc"

/-- Marker name for the source div. -/
def sourceN : String := "source"

/-- Marker name for the comment/code pair div. -/
def ccpairN : String := "ccpair"

/-- Marker name for the comment div. -/
def commentN : String := "comment"

/-- Marker name for the code div. -/
def codeN : String := "code"

/-- Marker name for the doc div. -/
def docN : String := "doc"

/-- The text a fragment contributes to the output string: `div` renders as
an opening div shortcode, `divEnd` as the divend shortcode with the name in
a trailing comment, and the fences are the three fence literals of the
source (after a comment block, at a comment-to-code switch, and in the
end-of-document cleanup). -/
def renderFrag : Frag → String
  | .text l => String.mk l
  | .mOpen n => "\x7b\x7b< div " ++ n ++ " >\x7d\x7d\n"
  | .mClose n => "\x7b\x7b< divend >\x7d\x7d <!--" ++ n ++ "-->\n"
  | .announce => "\x7b\x7b< announcement >\x7d\x7d\n"
  | .fenceOpen => "\n\x60\x60\x60go\n"
  | .fenceClose => "\x60\x60\x60\n\n"
  | .fenceCloseEOF => "\n\x60\x60\x60\n"

/-- The conversion states (the iota block at lines 354-363). -/
inductive Status where
  | beforefrontmatter : Status
  | frontmatter : Status
  | summary : Status
  | intro : Status
  | doc : Status
  | comment : Status
  | code : Status
  | none : Status
deriving DecidableEq

/-- A single newline, appended after most emitted lines. -/
def nlC : Line := ['\n']

/-- The text `errors.Wrap(err, "Failed generating Hype tag from line " +
line).Error()` appended to the output on a hype error; `line` there is the
inner variable freshly bound from `replaceHypeTag`'s result. -/
def wrapHypeErrText (innerLine msg : Line) : Line :=
  ("Failed generating Hype tag from line ").data ++ innerLine ++ (": ").data ++ msg

/-- The state dispatch of the conversion loop body after the image/hype
preprocessing (gotohugo.go lines 394-541), mirroring the source's chain of
status tests. The line-comment test for `none` and `code` (line 454) comes
before the `comment` and `code` blocks, which makes the duplicate
line-comment branch inside the `code` block (lines 498-506) unreachable; it
is kept here as written. -/
def stepMain (st : Status) (line : Line) : Status × List Frag :=
  if st = .beforefrontmatter then
    if isFrontmatterDelim line then (.frontmatter, [.text (line ++ nlC)])
    else (.beforefrontmatter, [])
  else if st = .frontmatter then
    if isFrontmatterDelim line then
      (.summary, [.text (line ++ nlC), .mOpen gotohugoN, .mOpen summaryN])
    else (.frontmatter, [.text (line ++ nlC)])
  else if st = .summary then
    if isSummaryDivider line then
      (.intro, [.mClose summaryN, .text (nlC ++ line ++ nlC ++ nlC), .announce, .mOpen introN])
    else (.summary, [.text (line ++ nlC)])
  else if st = .intro then
    if isCommentEnd line then (.none, [.mClose introN])
    else (.intro, [.text (line ++ nlC)])
  else if (st = .none || st = .code) && isLineComment line then
    (.comment,
      (if st = .code then [.fenceClose, .mClose codeN, .mClose ccpairN, .mOpen ccpairN]
       else [])
        ++ (if st = .none then [.mOpen sourceN, .mOpen ccpairN] else [])
        ++ [.mOpen commentN, .text (stripLineComment line ++ nlC)])
  else if st = .comment then
    if isLineComment line then (.comment, [.text (stripLineComment line ++ nlC)])
    else (.code, [.mClose commentN, .mOpen codeN, .fenceOpen, .text (line ++ nlC)])
  else if st = .code then
    if isLineComment line then
      (.comment, [.fenceClose, .mClose codeN, .mClose ccpairN, .mOpen ccpairN,
        .mOpen commentN, .text (stripLineComment line ++ nlC)])
    else if isCommentStart line then
      (.doc, [.fenceClose, .mClose codeN, .mClose ccpairN, .mClose sourceN,
        .mOpen docN, .text (stripCommentStart line ++ nlC)])
    else (.code, [.text (line ++ nlC)])
  else if st = .doc then
    if isCommentEnd line then (.none, [.mClose docN])
    else (.doc, [.text (line ++ nlC)])
  else (.none, [.text (line ++ nlC)])

/-- One iteration of the conversion loop. In the `doc`, `comment` and
`intro` states the line is first image-path-extended and then checked for a
hype tag: a found tag replaces the whole line by the snippet (state
unchanged); a hype error appends the wrapped error text and processing of
the line continues. The inner `line, found, err :=` in the source shadows
the loop variable, so after a not-found result the state dispatch sees the
image-extended line. -/
def step (fs : Line → Except Line Line) (outD mediaD pub b : Line)
    (st : Status) (line0 : Line) : Status × List Frag :=
  if st = .doc || st = .comment || st = .intro then
    let line := extendImagePath line0 b pub
    let r := replaceHypeTag fs outD mediaD pub line b
    let errFrags : List Frag :=
      match r.2.2 with
      | some msg => [.text (wrapHypeErrText r.1 msg)]
      | Option.none => []
    if r.2.1 then (st, errFrags ++ [.text r.1])
    else
      let m := stepMain st line
      (m.1, errFrags ++ m.2)
  else stepMain st line0

/-- The conversion loop over the split lines. -/
def runLines (fs : Line → Except Line Line) (outD mediaD pub b : Line) :
    Status → List Line → Status × List Frag
  | st, [] => (st, [])
  | st, l :: ls =>
    let r := step fs outD mediaD pub b st l
    let rest := runLines fs outD mediaD pub b r.1 ls
    (rest.1, r.2 ++ rest.2)

/-- The end-of-document cleanup (lines 544-553): a final code state gets a
closing fence and the code/ccpair closes; the gotohugo wrapper close is
always emitted. -/
def cleanup : Status → List Frag
  | .code => [.fenceCloseEOF, .mClose codeN, .mClose ccpairN, .mClose gotohugoN]
  | _ => [.mClose gotohugoN]

/-- convert, as final status and fragment list: normalize line endings,
split at newlines, fold the loop from `beforefrontmatter`, then clean up. -/
def convertFrags (fs : Line → Except Line Line) (outD mediaD pub : Line)
    (inp b : Line) : Status × List Frag :=
  let r := runLines fs outD mediaD pub b .beforefrontmatter (splitNl (removeCR inp))
  (r.1, r.2 ++ cleanup r.1)

/-- convert, as the returned Markdown string. -/
def convert (fs : Line → Except Line Line) (outD mediaD pub : Line)
    (inp b : String) : String :=
  String.join (((convertFrags fs outD mediaD pub inp.data b.data).2).map renderFrag)

/-! ## Counting marker emissions -/

/-- Number of open emissions of marker `m`. -/
def countOpen (m : String) : List Frag → Nat
  | [] => 0
  | .mOpen n :: fr => (if n = m then 1 else 0) + countOpen m fr
  | _ :: fr => countOpen m fr

/-- Number of close emissions of marker `m`. -/
def countClose (m : String) : List Frag → Nat
  | [] => 0
  | .mClose n :: fr => (if n = m then 1 else 0) + countClose m fr
  | _ :: fr => countClose m fr

/-- Number of announcement emissions. -/
def countAnn : List Frag → Nat
  | [] => 0
  | .announce :: fr => 1 + countAnn fr
  | _ :: fr => countAnn fr

/-- Number of opening code-fence emissions. -/
def countFenceOpen : List Frag → Nat
  | [] => 0
  | .fenceOpen :: fr => 1 + countFenceOpen fr
  | _ :: fr => countFenceOpen fr

/-- Number of closing code-fence emissions (mid-document or end cleanup). -/
def countFenceClose : List Frag → Nat
  | [] => 0
  | .fenceClose :: fr => 1 + countFenceClose fr
  | .fenceCloseEOF :: fr => 1 + countFenceClose fr
  | _ :: fr => countFenceClose fr

/-- Indicator: 1 if the marker names coincide. -/
def bi (n m : String) : Nat := if n = m then 1 else 0

/-- How many unmatched opens of marker `m` are outstanding in each state:
the summary and intro states sit inside the wrapper and their own div; the
comment and code states additionally sit inside the source and ccpair divs;
a doc block sits inside the wrapper and the doc div. -/
def depth (m : String) : Status → Nat
  | .beforefrontmatter => 0
  | .frontmatter => 0
  | .summary => bi gotohugoN m + bi summaryN m
  | .intro => bi gotohugoN m + bi introN m
  | .none => bi gotohugoN m
  | .comment => bi gotohugoN m + bi sourceN m + bi ccpairN m + bi commentN m
  | .code => bi gotohugoN m + bi sourceN m + bi ccpairN m + bi codeN m
  | .doc => bi gotohugoN m + bi docN m

/-- Outstanding opening code fences in each state: one inside a code block. -/
def fdepth (st : Status) : Nat := if st = Status.code then 1 else 0

/-- Spec-worded snippet extraction, written from claim C5's sentences for a
refinement comparison against `getHTMLSnippet`: keep exactly the lines
strictly between the first start marker and the next end marker (so end
markers before any start marker are ignored), rewrite the src attribute of
each kept line, then trim leading tab characters, and return the kept lines
newline-terminated plus one trailing blank line. -/
def specSnippetC5 (content b pub : Line) : Line :=
  let ls := splitNl (removeCR content)
  let kept := ((ls.dropWhile (fun l => !containsSub snipStart l)).drop 1).takeWhile
    (fun l => !containsSub snipEnd l)
  (kept.map (fun l => (extendSrc l b pub).dropWhile (fun c => c = '\t') ++ nlC)).flatten ++ nlC

/-! ## Counting lemmas -/

theorem countOpen_append (m : String) (a c : List Frag) :
    countOpen m (a ++ c) = countOpen m a + countOpen m c := by
  induction a with
  | nil => simp [countOpen]
  | cons f fr ih => cases f <;> simp [countOpen, ih] <;> omega

theorem countClose_append (m : String) (a c : List Frag) :
    countClose m (a ++ c) = countClose m a + countClose m c := by
  induction a with
  | nil => simp [countClose]
  | cons f fr ih => cases f <;> simp [countClose, ih] <;> omega

theorem countAnn_append (a c : List Frag) :
    countAnn (a ++ c) = countAnn a + countAnn c := by
  induction a with
  | nil => simp [countAnn]
  | cons f fr ih => cases f <;> simp [countAnn, ih] <;> omega

theorem countFenceOpen_append (a c : List Frag) :
    countFenceOpen (a ++ c) = countFenceOpen a + countFenceOpen c := by
  induction a with
  | nil => simp [countFenceOpen]
  | cons f fr ih => cases f <;> simp [countFenceOpen, ih] <;> omega

theorem countFenceClose_append (a c : List Frag) :
    countFenceClose (a ++ c) = countFenceClose a + countFenceClose c := by
  induction a with
  | nil => simp [countFenceClose]
  | cons f fr ih => cases f <;> simp [countFenceClose, ih] <;> omega

/-! ## The marker-depth invariant of the state machine -/

theorem stepMain_depth (st : Status) (l : Line) (m : String) :
    countOpen m (stepMain st l).2 + depth m st =
      countClose m (stepMain st l).2 + depth m (stepMain st l).1 := by
  cases st <;>
    simp only [stepMain] <;>
    split_ifs <;>
    simp_all [countOpen, countClose, depth, bi] <;>
    split_ifs <;>
    first | omega | simp_all

theorem step_depth (fs : Line → Except Line Line) (outD mediaD pub b : Line)
    (st : Status) (l : Line) (m : String) :
    countOpen m (step fs outD mediaD pub b st l).2 + depth m st =
      countClose m (step fs outD mediaD pub b st l).2 +
        depth m (step fs outD mediaD pub b st l).1 := by
  have hmain := stepMain_depth
  cases st <;> simp only [step] <;> split_ifs <;> try exact hmain _ _ _
  all_goals
    rcases hE : (replaceHypeTag fs outD mediaD pub (extendImagePath l b pub) b).2.2
        with _ | msg <;>
      rcases hF : (replaceHypeTag fs outD mediaD pub (extendImagePath l b pub) b).2.1 <;>
      simp [hE, hF, countOpen_append, countClose_append, countOpen, countClose] <;>
      try exact hmain _ _ _

theorem runLines_depth (fs : Line → Except Line Line) (outD mediaD pub b : Line)
    (m : String) :
    ∀ (ls : List Line) (st : Status),
      countOpen m (runLines fs outD mediaD pub b st ls).2 + depth m st =
        countClose m (runLines fs outD mediaD pub b st ls).2 +
          depth m (runLines fs outD mediaD pub b st ls).1
  | [], st => by simp [runLines, countOpen, countClose]
  | l :: ls, st => by
    have h1 := step_depth fs outD mediaD pub b st l m
    have h2 := runLines_depth fs outD mediaD pub b m ls (step fs outD mediaD pub b st l).1
    simp only [runLines, countOpen_append, countClose_append]
    omega

theorem stepMain_fence (st : Status) (l : Line) :
    countFenceOpen (stepMain st l).2 + fdepth st =
      countFenceClose (stepMain st l).2 + fdepth (stepMain st l).1 := by
  cases st <;>
    simp only [stepMain] <;>
    split_ifs <;>
    simp_all [countFenceOpen, countFenceClose, fdepth]

theorem step_fence (fs : Line → Except Line Line) (outD mediaD pub b : Line)
    (st : Status) (l : Line) :
    countFenceOpen (step fs outD mediaD pub b st l).2 + fdepth st =
      countFenceClose (step fs outD mediaD pub b st l).2 +
        fdepth (step fs outD mediaD pub b st l).1 := by
  have hmain := stepMain_fence
  cases st <;> simp only [step] <;> split_ifs <;> try exact hmain _ _
  all_goals
    rcases hE : (replaceHypeTag fs outD mediaD pub (extendImagePath l b pub) b).2.2
        with _ | msg <;>
      rcases hF : (replaceHypeTag fs outD mediaD pub (extendImagePath l b pub) b).2.1 <;>
      simp [hE, hF, countFenceOpen_append, countFenceClose_append,
        countFenceOpen, countFenceClose] <;>
      try exact hmain _ _

theorem runLines_fence (fs : Line → Except Line Line) (outD mediaD pub b : Line) :
    ∀ (ls : List Line) (st : Status),
      countFenceOpen (runLines fs outD mediaD pub b st ls).2 + fdepth st =
        countFenceClose (runLines fs outD mediaD pub b st ls).2 +
          fdepth (runLines fs outD mediaD pub b st ls).1
  | [], st => by simp [runLines, countFenceOpen, countFenceClose]
  | l :: ls, st => by
    have h1 := step_fence fs outD mediaD pub b st l
    have h2 := runLines_fence fs outD mediaD pub b ls (step fs outD mediaD pub b st l).1
    simp only [runLines, countFenceOpen_append, countFenceClose_append]
    omega

/-- Lines that are not metadata delimiters are all discarded without any
emission while the machine sits in the initial state. -/
theorem runLines_bfm_discard (fs : Line → Except Line Line) (outD mediaD pub b : Line) :
    ∀ ls : List Line, (∀ l ∈ ls, isFrontmatterDelim l = false) →
      runLines fs outD mediaD pub b Status.beforefrontmatter ls =
        (Status.beforefrontmatter, [])
  | [], _ => by simp [runLines]
  | l :: ls, h => by
    have hl : isFrontmatterDelim l = false := h l (by simp)
    have hstep : step fs outD mediaD pub b Status.beforefrontmatter l =
        (Status.beforefrontmatter, []) := by
      simp [step, stepMain, hl]
    have ih := runLines_bfm_discard fs outD mediaD pub b ls
      (fun x hx => h x (by simp [hx]))
    simp [runLines, hstep, ih]

/-! ## Claim theorems -/

/-- C9: for every input document (and any file system, directory
configuration and base name), the number of opening code fences emitted by
convert equals the number of closing code fences: every entry into the code
state emits an opening fence, and every exit from it -- including the
end-of-document cleanup -- emits a closing one. -/
theorem convert_fence_balance (fs : Line → Except Line Line)
    (outD mediaD pub inp b : Line) :
    countFenceOpen (convertFrags fs outD mediaD pub inp b).2 =
      countFenceClose (convertFrags fs outD mediaD pub inp b).2 := by
  have h := runLines_fence fs outD mediaD pub b (splitNl (removeCR inp))
    Status.beforefrontmatter
  have hc : ∀ st : Status, countFenceClose (cleanup st) = fdepth st := by
    intro st; cases st <;> simp [cleanup, countFenceClose, fdepth]
  have ho : ∀ st : Status, countFenceOpen (cleanup st) = 0 := by
    intro st; cases st <;> simp [cleanup, countFenceOpen]
  simp only [convertFrags, countFenceOpen_append, countFenceClose_append]
  rw [hc, ho]
  have h0 : fdepth Status.beforefrontmatter = 0 := by decide
  rw [h0] at h
  omega

/-- C1 (amended): for every input whose conversion ends in the neutral
state, the number of open emissions of every structural marker equals the
number of its close emissions. (As stated over all inputs the claim fails:
see the counterexample, where an input ending inside a comment/code pair
leaves the source marker open.) -/
theorem convert_marker_balance_of_final_neutral (fs : Line → Except Line Line)
    (outD mediaD pub inp b : Line) (m : String)
    (h : (convertFrags fs outD mediaD pub inp b).1 = Status.none) :
    countOpen m (convertFrags fs outD mediaD pub inp b).2 =
      countClose m (convertFrags fs outD mediaD pub inp b).2 := by
  have hd := runLines_depth fs outD mediaD pub b m (splitNl (removeCR inp))
    Status.beforefrontmatter
  simp only [convertFrags] at h ⊢
  rw [h] at hd ⊢
  simp only [depth, bi, cleanup, countOpen_append, countClose_append,
    countOpen, countClose] at hd ⊢
  split_ifs at hd ⊢ <;> omega

/-- C1 counterexample: a document that ends while a comment block is open
emits one open of the source marker and no close of it, so the structural
balance claimed for every input fails on this input. -/
theorem convert_marker_balance_counterexample :
    countOpen sourceN (convertFrags (fun _ => .error ("E").data) ("out").data [] []
      ("+++\n+++\n<!--more-->\n*/\n// c").data ("b").data).2 = 1 ∧
    countClose sourceN (convertFrags (fun _ => .error ("E").data) ("out").data [] []
      ("+++\n+++\n<!--more-->\n*/\n// c").data ("b").data).2 = 0 := by
  constructor <;> decide

/-- Witness for the amended C1 theorem at a concrete document whose
conversion ends in the neutral state. -/
theorem convert_marker_balance_witness :
    (convertFrags (fun _ => .error ("E").data) ("out").data [] []
      ("+++\n+++\n<!--more-->\n*/").data ("b").data).1 = Status.none ∧
    countOpen ccpairN (convertFrags (fun _ => .error ("E").data) ("out").data [] []
      ("+++\n+++\n<!--more-->\n*/").data ("b").data).2 =
      countClose ccpairN (convertFrags (fun _ => .error ("E").data) ("out").data [] []
        ("+++\n+++\n<!--more-->\n*/").data ("b").data).2 :=
  ⟨by decide,
    convert_marker_balance_of_final_neutral _ _ _ _ _ _ ccpairN (by decide)⟩

/-- C2: a document with no line matching the metadata-delimiter pattern has
every line discarded in the initial state, and convert returns only the
end-of-document closing marker of the document wrapper. -/
theorem convert_no_frontmatter_empty (fs : Line → Except Line Line)
    (outD mediaD pub : Line) (inp b : String)
    (h : ∀ l ∈ splitNl (removeCR inp.data), isFrontmatterDelim l = false) :
    (convertFrags fs outD mediaD pub inp.data b.data).2 = [Frag.mClose gotohugoN] ∧
    convert fs outD mediaD pub inp b = "\x7b\x7b< divend >\x7d\x7d <!--gotohugo-->\n" := by
  have hrun := runLines_bfm_discard fs outD mediaD pub b.data
    (splitNl (removeCR inp.data)) h
  constructor
  · simp [convertFrags, hrun, cleanup]
  · simp only [convert, convertFrags, hrun, cleanup]
    decide

/-- A pattern that matches nowhere in the text leaves it unchanged under
replace-all. -/
theorem replaceAllFuel_of_not_found (re : RE) (repl : Line) :
    ∀ (s : Line) (fuel : Nat) (at0 : Bool), reHas re at0 s = false →
      replaceAllFuel re repl fuel at0 s = s
  | s, 0, at0 => fun _ => rfl
  | [], fuel + 1, at0 => fun h => by
    simp only [reHas, decide_eq_false_iff_not, ne_eq, not_not] at h
    simp [replaceAllFuel, h]
  | c :: cs, fuel + 1, at0 => fun h => by
    simp only [reHas, Bool.or_eq_false_iff, decide_eq_false_iff_not, ne_eq,
      not_not] at h
    have ih := replaceAllFuel_of_not_found re repl cs fuel false
      (by simp [reHas, h.2])
    simp [replaceAllFuel, h.1, ih]

/-- Stripping is the identity on lines the line-comment pattern does not
match. -/
theorem stripLineComment_of_not_comment (l : Line) (h : isLineComment l = false) :
    stripLineComment l = l :=
  replaceAllFuel_of_not_found commentRE [] l (l.length + 1) true h

/-- C4 (amended): for every line matching the line-comment pattern whose
delimiter-stripped result no longer matches the pattern, stripping twice
yields the same result as stripping once. (As stated over all matching
lines the claim fails: a line whose stripped remainder is itself a line
comment, such as four slashes, strips differently the second time -- see
the counterexample.) -/
theorem stripLineComment_idempotent_of_stripped_not_comment (l : Line)
    (h1 : isLineComment l = true)
    (h2 : isLineComment (stripLineComment l) = false) :
    stripLineComment (stripLineComment l) = stripLineComment l :=
  stripLineComment_of_not_comment _ h2

/-- C4 counterexample: the line of four slashes matches the line-comment
pattern, but stripping it twice (giving the empty line) differs from
stripping it once (giving two slashes). -/
theorem stripLineComment_not_idempotent_counterexample :
    isLineComment ("////").data = true ∧
    stripLineComment (stripLineComment ("////").data) ≠
      stripLineComment ("////").data := by
  constructor <;> decide

/-- Witness for the amended C4 theorem. -/
theorem stripLineComment_idempotent_witness :
    isLineComment ("// x").data = true ∧
    isLineComment (stripLineComment ("// x").data) = false ∧
    stripLineComment (stripLineComment ("// x").data) =
      stripLineComment ("// x").data :=
  ⟨by decide, by decide,
    stripLineComment_idempotent_of_stripped_not_comment _ (by decide) (by decide)⟩

/-- The hype submatch list has either no entries or exactly the full match
and the captured path. -/
theorem hypeFindSubmatch_length (l : Line) :
    hypeFindSubmatch l = [] ∨ (hypeFindSubmatch l).length = 2 := by
  unfold hypeFindSubmatch
  cases hypeFind? l <;> simp

/-- C3: the core signals failure exactly when a hype tag is present in the
line but fewer than two entries (full match and captured path) come back
from the submatch search; this is the only case in which replaceHypeTag
hands a non-nil error to convert. Because the animation pattern's path
group is mandatory, the submatch list always has zero or two entries, so
this error condition is never satisfiable in fact. -/
theorem replaceHypeTag_error_iff_tag_without_path (fs : Line → Except Line Line)
    (outD mediaD pub line b : Line) :
    (replaceHypeTag fs outD mediaD pub line b).2.2 ≠ Option.none ↔
      (hypeFindSubmatch line ≠ [] ∧ (hypeFindSubmatch line).length < 2) := by
  unfold replaceHypeTag
  split_ifs with hp
  · rcases hypeFindSubmatch_length line with hl | hl <;> simp [hl]
  · cases hm : hypeFindSubmatch line with
    | nil => simp [hm]
    | cons a t =>
      cases t with
      | nil => simp [hm]
      | cons p r => simp [hm]

/-- C6: for every path whose file is unreadable, getHTMLSnippet does not
abort: it returns the human-readable warning text, which embeds the
attempted path, followed by the underlying error text. -/
theorem getHTMLSnippet_missing_file_warning (fs : Line → Except Line Line)
    (path b pub e : Line) (h : fs path = .error e) :
    getHTMLSnippet fs path b pub =
      ("**No Hype file found at ").data ++ path ++
        (". Please run gotohugo again after creating the Hype animation HTML export.").data ++
        (": ").data ++ e := by
  simp [getHTMLSnippet, h]

/-- Witness for C6 at a concrete unreadable path. -/
theorem getHTMLSnippet_missing_file_warning_witness :
    (fun _ : Line => (Except.error ("open: no such file").data : Except Line Line))
        ("anim.html").data = .error ("open: no such file").data ∧
    getHTMLSnippet (fun _ => .error ("open: no such file").data) ("anim.html").data
        ("b").data [] =
      ("**No Hype file found at ").data ++ ("anim.html").data ++
        (". Please run gotohugo again after creating the Hype animation HTML export.").data ++
        (": ").data ++ ("open: no such file").data :=
  ⟨rfl,
    getHTMLSnippet_missing_file_warning (fun _ => .error ("open: no such file").data)
      ("anim.html").data ("b").data [] ("open: no such file").data rfl⟩

/-- A line on which the hype search finds nothing (or which is preformatted)
is processed identically under any two file systems. -/
theorem step_eq_of_no_hype (fs fs' : Line → Except Line Line)
    (outD mediaD pub b : Line) (st : Status) (l : Line)
    (h : isPreformatted (extendImagePath l b pub) = true ∨
      hypeFindSubmatch (extendImagePath l b pub) = []) :
    step fs outD mediaD pub b st l = step fs' outD mediaD pub b st l := by
  have hrep : ∀ g : Line → Except Line Line,
      replaceHypeTag g outD mediaD pub (extendImagePath l b pub) b =
        (extendImagePath l b pub, false, Option.none) := by
    intro g
    rcases h with h | h
    · simp [replaceHypeTag, h]
    · cases hp : isPreformatted (extendImagePath l b pub) <;>
        simp [replaceHypeTag, hp, h]
  unfold step
  split_ifs with hst
  · simp [hrep fs, hrep fs']
  · rfl

/-- A document none of whose lines carries an animation reference runs
identically under any two file systems. -/
theorem runLines_eq_of_no_hype (fs fs' : Line → Except Line Line)
    (outD mediaD pub b : Line) :
    ∀ (ls : List Line) (st : Status),
      (∀ l ∈ ls, isPreformatted (extendImagePath l b pub) = true ∨
        hypeFindSubmatch (extendImagePath l b pub) = []) →
      runLines fs outD mediaD pub b st ls = runLines fs' outD mediaD pub b st ls
  | [], st => fun _ => rfl
  | l :: ls, st => fun h => by
    have hs := step_eq_of_no_hype fs fs' outD mediaD pub b st l (h l (by simp))
    have ih := runLines_eq_of_no_hype fs fs' outD mediaD pub b ls
      (step fs' outD mediaD pub b st l).1 (fun x hx => h x (by simp [hx]))
    simp [runLines, hs, ih]

/-- C8 (amended): conversion is a deterministic function of the document
text, the base name, the directory configuration and the contents of the
referenced snippet files; for documents containing no animation reference
the file system plays no role, so the output is a function of the text and
base name (and directory configuration) alone. (As claimed -- a function of
text and base name alone for every document -- this fails: see the
counterexample, where the same document converts differently under two file
systems.) -/
theorem convert_deterministic_without_animation (fs fs' : Line → Except Line Line)
    (outD mediaD pub inp b : Line)
    (h : ∀ l ∈ splitNl (removeCR inp),
      isPreformatted (extendImagePath l b pub) = true ∨
        hypeFindSubmatch (extendImagePath l b pub) = []) :
    convertFrags fs outD mediaD pub inp b = convertFrags fs' outD mediaD pub inp b := by
  unfold convertFrags
  rw [runLines_eq_of_no_hype fs fs' outD mediaD pub b (splitNl (removeCR inp))
    Status.beforefrontmatter h]

/-- C8 counterexample: a document whose intro contains an animation tag
converts to different outputs under two file systems that report different
errors for the referenced snippet file, so conversion is not a function of
the document text and base name alone. -/
theorem convert_fs_dependence_counterexample :
    convertFrags (fun _ => .error ("E1").data) ("out").data [] []
      ("+++\n+++\n<!--more-->\nHYPE[a](b.html)").data ("b").data ≠
    convertFrags (fun _ => .error ("E2").data) ("out").data [] []
      ("+++\n+++\n<!--more-->\nHYPE[a](b.html)").data ("b").data := by
  decide

/-- Witness for the amended C8 theorem at a concrete animation-free
document and two distinct file systems. -/
theorem convert_deterministic_witness :
    (∀ l ∈ splitNl (removeCR ("+++\n+++\n<!--more-->\nplain text").data),
      isPreformatted (extendImagePath l ("b").data []) = true ∨
        hypeFindSubmatch (extendImagePath l ("b").data []) = []) ∧
    convertFrags (fun _ => .error ("E1").data) ("out").data [] []
      ("+++\n+++\n<!--more-->\nplain text").data ("b").data =
    convertFrags (fun _ => .error ("E2").data) ("out").data [] []
      ("+++\n+++\n<!--more-->\nplain text").data ("b").data :=
  ⟨by decide,
    convert_deterministic_without_animation (fun _ => .error ("E1").data)
      (fun _ => .error ("E2").data) ("out").data [] []
      ("+++\n+++\n<!--more-->\nplain text").data ("b").data (by decide)⟩

/-- Lines before the first start marker are skipped by the snippet scanner,
end markers among them included. -/
theorem snippetScan_skip (b pub : Line) :
    ∀ pre rest : List Line, (∀ l ∈ pre, containsSub snipStart l = false) →
      snippetScan b pub false (pre ++ rest) = snippetScan b pub false rest
  | [], rest => fun _ => rfl
  | l :: pre, rest => fun h => by
    have hl := h l (by simp)
    have ih := snippetScan_skip b pub pre rest (fun x hx => h x (by simp [hx]))
    cases hend : containsSub snipEnd l <;> simp [snippetScan, hl, hend, ih]

/-- Marker-free lines are collected while the scanner is inside the
region: each is tab-trimmed, src-rewritten and newline-terminated. -/
theorem snippetScan_collect (b pub : Line) :
    ∀ mid rest : List Line,
      (∀ l ∈ mid, containsSub snipStart l = false ∧ containsSub snipEnd l = false) →
      snippetScan b pub true (mid ++ rest) =
        (mid.map (fun l => extendSrc (trimTabs l) b pub ++ nlC)).flatten ++
          snippetScan b pub true rest
  | [], rest => fun _ => by simp
  | l :: mid, rest => fun h => by
    have hl := h l (by simp)
    have ih := snippetScan_collect b pub mid rest (fun x hx => h x (by simp [hx]))
    simp [snippetScan, hl.1, hl.2, ih, nlC]

/-- C5 (amended): on readable content splitting as some prefix free of
start markers, the first start-marker line, marker-free kept lines, an
end-marker line and an arbitrary tail, getHTMLSnippet returns exactly the
kept lines -- each trimmed of leading and trailing tab characters and then
src-rewritten -- newline-terminated, plus one trailing blank line. End
markers in the prefix are ignored. (As stated the claim fails: the code
trims tabs from both ends before rewriting, not only leading tabs after
rewriting -- see the counterexample against the spec-worded extraction.) -/
theorem getHTMLSnippet_extraction (fs : Line → Except Line Line)
    (path b pub content : Line) (pre mid post : List Line) (s e : Line)
    (hfs : fs path = .ok content)
    (hsplit : splitNl (removeCR content) = pre ++ (s :: (mid ++ (e :: post))))
    (hpre : ∀ l ∈ pre, containsSub snipStart l = false)
    (hs : containsSub snipStart s = true)
    (hmid : ∀ l ∈ mid, containsSub snipStart l = false ∧ containsSub snipEnd l = false)
    (heS : containsSub snipStart e = false)
    (heE : containsSub snipEnd e = true) :
    getHTMLSnippet fs path b pub =
      (mid.map (fun l => extendSrc (trimTabs l) b pub ++ nlC)).flatten ++ nlC := by
  have h1 : getHTMLSnippet fs path b pub =
      snippetScan b pub false (splitNl (removeCR content)) := by
    simp [getHTMLSnippet, hfs]
  rw [h1, hsplit, snippetScan_skip b pub pre (s :: (mid ++ e :: post)) hpre]
  have h2 : snippetScan b pub false (s :: (mid ++ e :: post)) =
      snippetScan b pub true (mid ++ e :: post) := by
    simp [snippetScan, hs]
  rw [h2, snippetScan_collect b pub mid (e :: post) hmid]
  have h3 : snippetScan b pub true (e :: post) = nlC := by
    simp [snippetScan, heS, heE, nlC]
  rw [h3]

/-- C5 counterexample: on a snippet file whose kept line carries a trailing
tab, getHTMLSnippet (which trims tabs from both ends before rewriting)
differs from the spec-worded extraction (which rewrites and then trims
leading tabs only). -/
theorem getHTMLSnippet_spec_mismatch_counterexample :
    getHTMLSnippet
        (fun p => if p = ("p").data then
          .ok ("<!-- copy these lines to your document: -->\nx\t\n<!-- end copy -->").data
          else .error [])
        ("p").data ("b").data [] = ("x\n\n").data ∧
    specSnippetC5
        ("<!-- copy these lines to your document: -->\nx\t\n<!-- end copy -->").data
        ("b").data [] = ("x\t\n\n").data ∧
    getHTMLSnippet
        (fun p => if p = ("p").data then
          .ok ("<!-- copy these lines to your document: -->\nx\t\n<!-- end copy -->").data
          else .error [])
        ("p").data ("b").data [] ≠
      specSnippetC5
        ("<!-- copy these lines to your document: -->\nx\t\n<!-- end copy -->").data
        ("b").data [] := by
  refine ⟨by decide, by decide, by decide⟩

/-- Witness for the amended C5 theorem on a concrete snippet file whose
prefix contains a stray end marker. -/
theorem getHTMLSnippet_extraction_witness :
    getHTMLSnippet
        (fun p => if p = ("p").data then
          .ok ("junk\n<!-- end copy -->\n<!-- copy these lines to your document: -->\na\nb\n<!-- end copy -->\ntail").data
          else .error [])
        ("p").data ("b").data [] = ("a\nb\n\n").data :=
  (getHTMLSnippet_extraction
    (fun p => if p = ("p").data then
      .ok ("junk\n<!-- end copy -->\n<!-- copy these lines to your document: -->\na\nb\n<!-- end copy -->\ntail").data
      else .error [])
    ("p").data ("b").data []
    ("junk\n<!-- end copy -->\n<!-- copy these lines to your document: -->\na\nb\n<!-- end copy -->\ntail").data
    [("junk").data, ("<!-- end copy -->").data]
    [("a").data, ("b").data] [("tail").data]
    ("<!-- copy these lines to your document: -->").data
    ("<!-- end copy -->").data
    rfl (by decide) (by decide) (by decide) (by decide) (by decide)
    (by decide)).trans (by decide)

/-- Witness for C2 at a concrete two-line document without metadata
delimiters. -/
theorem convert_no_frontmatter_empty_witness :
    (∀ l ∈ splitNl (removeCR ("hello\nworld").data), isFrontmatterDelim l = false) ∧
    convert (fun _ => .error ("E").data) ("out").data [] [] "hello\nworld" "b" =
      "\x7b\x7b< divend >\x7d\x7d <!--gotohugo-->\n" :=
  ⟨by decide,
    (convert_no_frontmatter_empty (fun _ => .error ("E").data) ("out").data [] []
      "hello\nworld" "b" (by decide)).2⟩

theorem stepMain_post_summary (st : Status) (l : Line)
    (h1 : st ≠ Status.beforefrontmatter) (h2 : st ≠ Status.frontmatter)
    (h3 : st ≠ Status.summary) :
    ((stepMain st l).1 ≠ Status.beforefrontmatter ∧
      (stepMain st l).1 ≠ Status.frontmatter ∧
      (stepMain st l).1 ≠ Status.summary) ∧
    countAnn (stepMain st l).2 = 0 ∧ countOpen introN (stepMain st l).2 = 0 := by
  revert h1 h2 h3
  cases st <;> intro h1 h2 h3 <;>
    first
      | exact absurd rfl h1
      | exact absurd rfl h2
      | exact absurd rfl h3
      | (simp only [stepMain] <;> split_ifs <;>
          refine ⟨⟨by simp_all, by simp_all, by simp_all⟩, ?_, ?_⟩ <;>
          simp_all [countAnn, countOpen, introN, sourceN, ccpairN, commentN,
            codeN, docN, gotohugoN, summaryN] <;>
          try decide)

theorem step_post_summary (fs : Line → Except Line Line) (outD mediaD pub b : Line)
    (st : Status) (l : Line)
    (h1 : st ≠ Status.beforefrontmatter) (h2 : st ≠ Status.frontmatter)
    (h3 : st ≠ Status.summary) :
    ((step fs outD mediaD pub b st l).1 ≠ Status.beforefrontmatter ∧
      (step fs outD mediaD pub b st l).1 ≠ Status.frontmatter ∧
      (step fs outD mediaD pub b st l).1 ≠ Status.summary) ∧
    countAnn (step fs outD mediaD pub b st l).2 = 0 ∧
      countOpen introN (step fs outD mediaD pub b st l).2 = 0 := by
  have hmain := stepMain_post_summary
  revert h1 h2 h3
  cases st <;> intro h1 h2 h3 <;>
    first
      | exact absurd rfl h1
      | exact absurd rfl h2
      | exact absurd rfl h3
      | exact hmain _ l h1 h2 h3
      | (simp only [step] <;> split_ifs <;>
          (try exact hmain _ l h1 h2 h3) <;>
          rcases hE : (replaceHypeTag fs outD mediaD pub (extendImagePath l b pub) b).2.2
              with _ | msg <;>
            rcases hF : (replaceHypeTag fs outD mediaD pub (extendImagePath l b pub) b).2.1 <;>
            simp [hE, hF, countAnn_append, countOpen_append, countAnn, countOpen] <;>
            first
              | exact hmain _ _ (by simp) (by simp) (by simp)
              | (have hm := hmain _ (extendImagePath l b pub) h1 h2 h3
                 exact ⟨hm.1, hm.2.1, hm.2.2⟩)
              | simp_all)

theorem runLines_post_summary (fs : Line → Except Line Line) (outD mediaD pub b : Line) :
    ∀ (ls : List Line) (st : Status),
      st ≠ Status.beforefrontmatter → st ≠ Status.frontmatter → st ≠ Status.summary →
      ((runLines fs outD mediaD pub b st ls).1 ≠ Status.beforefrontmatter ∧
        (runLines fs outD mediaD pub b st ls).1 ≠ Status.frontmatter ∧
        (runLines fs outD mediaD pub b st ls).1 ≠ Status.summary) ∧
      countAnn (runLines fs outD mediaD pub b st ls).2 = 0 ∧
        countOpen introN (runLines fs outD mediaD pub b st ls).2 = 0
  | [], st => fun h1 h2 h3 => by
    simp only [runLines]
    exact ⟨⟨h1, h2, h3⟩, rfl, rfl⟩
  | l :: ls, st => fun h1 h2 h3 => by
    have hs := step_post_summary fs outD mediaD pub b st l h1 h2 h3
    have ih := runLines_post_summary fs outD mediaD pub b ls
      (step fs outD mediaD pub b st l).1 hs.1.1 hs.1.2.1 hs.1.2.2
    simp only [runLines, countAnn_append, countOpen_append]
    exact ⟨ih.1, by omega, by omega⟩

theorem runLines_fm_texts (fs : Line → Except Line Line) (outD mediaD pub b : Line) :
    ∀ ls : List Line, (∀ l ∈ ls, isFrontmatterDelim l = false) →
      runLines fs outD mediaD pub b Status.frontmatter ls =
        (Status.frontmatter, ls.map (fun l => Frag.text (l ++ nlC)))
  | [], _ => by simp [runLines]
  | l :: ls, h => by
    have hl := h l (by simp)
    have ih := runLines_fm_texts fs outD mediaD pub b ls (fun x hx => h x (by simp [hx]))
    have hstep : step fs outD mediaD pub b Status.frontmatter l =
        (Status.frontmatter, [Frag.text (l ++ nlC)]) := by
      simp [step, stepMain, hl]
    simp [runLines, hstep, ih]

theorem runLines_summary_texts (fs : Line → Except Line Line) (outD mediaD pub b : Line) :
    ∀ ls : List Line, (∀ l ∈ ls, isSummaryDivider l = false) →
      runLines fs outD mediaD pub b Status.summary ls =
        (Status.summary, ls.map (fun l => Frag.text (l ++ nlC)))
  | [], _ => by simp [runLines]
  | l :: ls, h => by
    have hl := h l (by simp)
    have ih := runLines_summary_texts fs outD mediaD pub b ls (fun x hx => h x (by simp [hx]))
    have hstep : step fs outD mediaD pub b Status.summary l =
        (Status.summary, [Frag.text (l ++ nlC)]) := by
      simp [step, stepMain, hl]
    simp [runLines, hstep, ih]

theorem countAnn_texts (ls : List Line) :
    countAnn (ls.map (fun l => Frag.text (l ++ nlC))) = 0 := by
  induction ls with
  | nil => rfl
  | cons l ls ih => simp [countAnn, ih]

theorem countOpen_texts (m : String) (ls : List Line) :
    countOpen m (ls.map (fun l => Frag.text (l ++ nlC))) = 0 := by
  induction ls with
  | nil => rfl
  | cons l ls ih => simp [countOpen, ih]

theorem countAnn_cleanup (st : Status) : countAnn (cleanup st) = 0 := by
  cases st <;> rfl

theorem countOpen_cleanup (m : String) (st : Status) : countOpen m (cleanup st) = 0 := by
  cases st <;> rfl

theorem runLines_append (fs : Line → Except Line Line) (outD mediaD pub b : Line) :
    ∀ (xs ys : List Line) (st : Status),
      runLines fs outD mediaD pub b st (xs ++ ys) =
        ((runLines fs outD mediaD pub b
            (runLines fs outD mediaD pub b st xs).1 ys).1,
          (runLines fs outD mediaD pub b st xs).2 ++
            (runLines fs outD mediaD pub b
              (runLines fs outD mediaD pub b st xs).1 ys).2)
  | [], ys, st => by simp [runLines]
  | x :: xs, ys, st => by
    have ih := runLines_append fs outD mediaD pub b xs ys
      (step fs outD mediaD pub b st x).1
    simp [runLines, ih]

/-- C7: for every document containing exactly one summary divider after a
well-formed metadata block (a prefix without metadata delimiters, an opening
delimiter line, delimiter-free metadata lines, a closing delimiter line,
then divider-free summary lines), the output contains exactly one
announcement marker and exactly one intro-open marker, both emitted
immediately after the divider line, which itself follows the summary-close
marker. -/
theorem convert_single_divider_announcement
    (fs : Line → Except Line Line) (outD mediaD pub inp b : Line)
    (pre mid sum rest : List Line) (d1 d2 sd : Line)
    (hsplit : splitNl (removeCR inp) =
      pre ++ (d1 :: (mid ++ (d2 :: (sum ++ (sd :: rest))))))
    (hpre : ∀ l ∈ pre, isFrontmatterDelim l = false ∧ isSummaryDivider l = false)
    (hd1 : isFrontmatterDelim d1 = true) (hd1d : isSummaryDivider d1 = false)
    (hmid : ∀ l ∈ mid, isFrontmatterDelim l = false ∧ isSummaryDivider l = false)
    (hd2 : isFrontmatterDelim d2 = true) (hd2d : isSummaryDivider d2 = false)
    (hsum : ∀ l ∈ sum, isSummaryDivider l = false)
    (hsd : isSummaryDivider sd = true)
    (hrest : ∀ l ∈ rest, isSummaryDivider l = false) :
    ∃ A B : List Frag,
      (convertFrags fs outD mediaD pub inp b).2 =
        A ++ ([Frag.mClose summaryN, Frag.text (nlC ++ sd ++ nlC ++ nlC),
          Frag.announce, Frag.mOpen introN] ++ B) ∧
      countAnn A = 0 ∧ countOpen introN A = 0 ∧
      countAnn B = 0 ∧ countOpen introN B = 0 := by
  have hr0 := runLines_bfm_discard fs outD mediaD pub b pre (fun l hl => (hpre l hl).1)
  have hs1 : step fs outD mediaD pub b Status.beforefrontmatter d1 =
      (Status.frontmatter, [Frag.text (d1 ++ nlC)]) := by simp [step, stepMain, hd1]
  have hr1 := runLines_fm_texts fs outD mediaD pub b mid (fun l hl => (hmid l hl).1)
  have hs2 : step fs outD mediaD pub b Status.frontmatter d2 =
      (Status.summary, [Frag.text (d2 ++ nlC), Frag.mOpen gotohugoN, Frag.mOpen summaryN]) := by
    simp [step, stepMain, hd2]
  have hr2 := runLines_summary_texts fs outD mediaD pub b sum hsum
  have hs3 : step fs outD mediaD pub b Status.summary sd =
      (Status.intro, [Frag.mClose summaryN, Frag.text (nlC ++ sd ++ nlC ++ nlC),
        Frag.announce, Frag.mOpen introN]) := by simp [step, stepMain, hsd]
  have hr3 := runLines_post_summary fs outD mediaD pub b rest Status.intro
    (by simp) (by simp) (by simp)
  have key : runLines fs outD mediaD pub b Status.beforefrontmatter
      (pre ++ (d1 :: (mid ++ (d2 :: (sum ++ (sd :: rest)))))) =
      ((runLines fs outD mediaD pub b Status.intro rest).1,
        ([Frag.text (d1 ++ nlC)] ++ (mid.map (fun l => Frag.text (l ++ nlC))) ++
          ([Frag.text (d2 ++ nlC), Frag.mOpen gotohugoN, Frag.mOpen summaryN] ++
          (sum.map (fun l => Frag.text (l ++ nlC))))) ++
        ([Frag.mClose summaryN, Frag.text (nlC ++ sd ++ nlC ++ nlC),
          Frag.announce, Frag.mOpen introN] ++
          (runLines fs outD mediaD pub b Status.intro rest).2)) := by
    simp [runLines_append, runLines, hr0, hr1, hr2, hs1, hs2, hs3]
  refine ⟨[Frag.text (d1 ++ nlC)] ++ (mid.map (fun l => Frag.text (l ++ nlC))) ++
      ([Frag.text (d2 ++ nlC), Frag.mOpen gotohugoN, Frag.mOpen summaryN] ++
        (sum.map (fun l => Frag.text (l ++ nlC)))),
    (runLines fs outD mediaD pub b Status.intro rest).2 ++
      cleanup (runLines fs outD mediaD pub b Status.intro rest).1, ?_, ?_, ?_, ?_, ?_⟩
  · simp only [convertFrags]
    rw [hsplit, key]
    simp
  · simp [countAnn_append, countAnn, countAnn_texts]
  · simp [countOpen_append, countOpen, countOpen_texts, introN, gotohugoN, summaryN]
  · simp [countAnn_append, countAnn_cleanup, hr3.2.1]
  · simp [countOpen_append, countOpen_cleanup, hr3.2.2]

/-- Witness for C7 at a concrete well-formed document. -/
theorem convert_single_divider_announcement_witness :
    ∃ A B : List Frag,
      (convertFrags (fun _ => .error ("E").data) ("out").data [] []
        ("x\n+++\nt = 1\n+++\nhello\n<!--more-->\n*/\ntail").data ("b").data).2 =
        A ++ ([Frag.mClose summaryN,
          Frag.text (nlC ++ ("<!--more-->").data ++ nlC ++ nlC),
          Frag.announce, Frag.mOpen introN] ++ B) ∧
      countAnn A = 0 ∧ countOpen introN A = 0 ∧
      countAnn B = 0 ∧ countOpen introN B = 0 :=
  convert_single_divider_announcement (fun _ => .error ("E").data) ("out").data [] []
    ("x\n+++\nt = 1\n+++\nhello\n<!--more-->\n*/\ntail").data ("b").data
    [("x").data] [("t = 1").data] [("hello").data] [("*/").data, ("tail").data]
    ("+++").data ("+++").data ("<!--more-->").data
    (by decide) (by decide) (by decide) (by decide) (by decide) (by decide) (by decide)
    (by decide) (by decide) (by decide)


theorem startsW_iff_append (p : Line) : ∀ s : Line,
    startsW p s = true ↔ ∃ r, s = p ++ r := by
  induction p with
  | nil => intro s; simp [startsW]
  | cons c p ih =>
    intro s
    cases s with
    | nil => simp [startsW]
    | cons x xs =>
      simp only [startsW, Bool.and_eq_true, decide_eq_true_eq, ih, List.cons_append,
        List.cons.injEq]
      constructor
      · rintro ⟨hc, r, rfl⟩; exact ⟨r, hc.symm ▸ rfl, rfl⟩
      · rintro ⟨r, hx, rfl⟩; exact ⟨hx.symm, r, rfl⟩

theorem dropWhile_all_prefix (p : Char → Bool) :
    ∀ (w : Line) (x : Char) (r : Line), w.all p = true → p x = false →
      (w ++ x :: r).dropWhile p = x :: r
  | [], x, r => fun _ hx => by simp [List.dropWhile, hx]
  | c :: w, x, r => fun hall hx => by
    simp only [List.all_cons, Bool.and_eq_true] at hall
    simp [List.dropWhile, hall.1, dropWhile_all_prefix p w x r hall.2 hx]

theorem takeWhile_len_eq_iff_all (p : Char → Bool) :
    ∀ t : Line, ((t.takeWhile p).length = t.length) ↔ t.all p = true := by
  intro t
  induction t with
  | nil => simp
  | cons c t ih =>
    by_cases h : p c <;> simp [List.takeWhile_cons, h, ih]


theorem reRun_lit3 (c1 c2 c3 : Char) (at0 : Bool) (s : Line) :
    (reRun (RE.seq (.lit c1) (.seq (.lit c2) (.lit c3))) at0 s ≠ []) ↔
      startsW [c1, c2, c3] s = true := by
  rcases s with _ | ⟨a, _ | ⟨b, _ | ⟨c, t⟩⟩⟩ <;>
    simp [reRun, startsW] <;>
    try (constructor <;> rintro ⟨x1, x2, x3⟩ <;> exact ⟨x1.symm, x2.symm, x3.symm⟩)

theorem reRun_wsStar_eol (at0 : Bool) (t : Line) :
    (reRun (RE.seq (.starCls wsP) .eol) at0 t ≠ []) ↔ t.all wsP = true := by
  simp only [reRun, ne_eq, List.flatMap_eq_nil_iff, List.mem_map,
    List.mem_reverse, List.mem_range, not_forall]
  constructor
  · rintro ⟨x, ⟨⟨k, hk, rfl⟩, hne⟩⟩
    by_cases hd : t.drop k = []
    · have hlen : t.length ≤ k := List.drop_eq_nil_iff.mp hd
      have hle : (t.takeWhile wsP).length ≤ t.length :=
        (List.takeWhile_sublist wsP).length_le
      have heq : (t.takeWhile wsP).length = t.length := by omega
      exact (takeWhile_len_eq_iff_all wsP t).mp heq
    · simp [reRun, hd] at hne
  · intro hall
    refine ⟨(at0 && decide (t.length = 0), t.drop t.length), ⟨⟨t.length, ?_, rfl⟩, ?_⟩⟩
    · have := (takeWhile_len_eq_iff_all wsP t).mpr hall
      omega
    · simp [reRun, List.drop_length]

theorem reRun_seq_def (a b : RE) (at0 : Bool) (s : Line) :
    reRun (.seq a b) at0 s = (reRun a at0 s).flatMap (fun r => reRun b r.1 r.2) := rfl

theorem reRun_lit_cons (cc x : Char) (xs : Line) (at0 : Bool) :
    reRun (.lit cc) at0 (x :: xs) = if x = cc then [(false, xs)] else [] := rfl

theorem reRun_bol (at0 : Bool) (s : Line) :
    reRun .bol at0 s = if at0 then [(at0, s)] else [] := rfl

theorem reRun_frontDash_iff (at0 : Bool) (s : Line) :
    (reRun frontDashRE at0 s ≠ []) ↔
      ∃ w : Line, s = '-' :: '-' :: '-' :: w ∧ w.all wsP = true := by
  rcases s with _ | ⟨a, _ | ⟨b, _ | ⟨c, t⟩⟩⟩
  · simp [frontDashRE, reRun]
  · simp only [frontDashRE, reRun_seq_def, reRun_lit_cons]
    split_ifs <;> simp [reRun]
  · simp only [frontDashRE, reRun_seq_def, reRun_lit_cons]
    split_ifs <;> simp [reRun, reRun_lit_cons]
  · by_cases ha : a = '-'
    · subst ha
      by_cases hb : b = '-'
      · subst hb
        by_cases hc : c = '-'
        · subst hc
          have hred : reRun frontDashRE at0 ('-' :: '-' :: '-' :: t) =
              reRun (RE.seq (.starCls wsP) RE.eol) false t := by
            simp only [frontDashRE, reRun_seq_def]
            simp [reRun_lit_cons]
          rw [hred, reRun_wsStar_eol false t]
          simp
        · simp [frontDashRE, reRun_seq_def, reRun_lit_cons, hc]
      · simp [frontDashRE, reRun_seq_def, reRun_lit_cons, hb]
    · simp [frontDashRE, reRun_seq_def, reRun_lit_cons, ha]

theorem exists_drop_startsW (c0 : Char) (pat : Line) (p : Char → Bool)
    (hc0 : p c0 = false) :
    ∀ s : Line,
      (∃ k, k ≤ (s.takeWhile p).length ∧ startsW (c0 :: pat) (s.drop k) = true) ↔
        startsW (c0 :: pat) (s.dropWhile p) = true
  | [] => by
    simp [List.takeWhile, List.dropWhile]
  | x :: s => by
    by_cases h : p x
    · simp only [List.takeWhile_cons, List.dropWhile_cons, h, if_true]
      rw [← exists_drop_startsW c0 pat p hc0 s]
      constructor
      · rintro ⟨k, hk, hsw⟩
        cases k with
        | zero =>
          exfalso
          simp only [List.drop_zero, startsW, Bool.and_eq_true, decide_eq_true_eq] at hsw
          rw [hsw.1] at hc0
          rw [h] at hc0
          exact Bool.true_eq_false.mp hc0
        | succ k' =>
          refine ⟨k', ?_, by simpa using hsw⟩
          simp at hk
          omega
      · rintro ⟨k, hk, hsw⟩
        refine ⟨k + 1, by simp; omega, by simpa using hsw⟩
    · simp only [List.takeWhile_cons, List.dropWhile_cons, h, if_false,
        Bool.false_eq_true, List.length_nil, Nat.le_zero]
      constructor
      · rintro ⟨k, rfl, hsw⟩
        simpa using hsw
      · intro hsw
        exact ⟨0, rfl, by simpa using hsw⟩

theorem reRun_frontPlus_unfold (s : Line) :
    reRun frontPlusRE true s =
      (reRun (RE.starCls wsP) true s).flatMap
        (fun r => reRun (RE.seq (.lit '+') (.seq (.lit '+') (.lit '+'))) r.1 r.2) := by
  simp only [frontPlusRE, reRun_seq_def, reRun_bol]
  simp

theorem reRun_frontPlus_iff (s : Line) :
    (reRun frontPlusRE true s ≠ []) ↔
      startsW ['+', '+', '+'] (s.dropWhile wsP) = true := by
  rw [← exists_drop_startsW '+' ['+', '+'] wsP (by decide) s]
  constructor
  · intro h
    rw [reRun_frontPlus_unfold, Ne, List.flatMap_eq_nil_iff] at h
    push_neg at h
    obtain ⟨⟨a0, srem⟩, hmem, hne⟩ := h
    simp only [reRun, List.mem_map, List.mem_reverse, List.mem_range] at hmem
    obtain ⟨k, hk, heq⟩ := hmem
    cases heq
    refine ⟨k, by omega, ?_⟩
    exact (reRun_lit3 '+' '+' '+' _ _).mp hne
  · rintro ⟨k, hk, hsw⟩
    rw [reRun_frontPlus_unfold, Ne, List.flatMap_eq_nil_iff]
    push_neg
    refine ⟨(true && decide (k = 0), s.drop k), ?_, ?_⟩
    · simp only [reRun, List.mem_map, List.mem_reverse, List.mem_range]
      exact ⟨k, by omega, rfl⟩
    · exact (reRun_lit3 '+' '+' '+' _ _).mpr hsw

theorem frontRE_alt_ne (at0 : Bool) (t : Line) :
    (reRun frontmatterRE at0 t ≠ []) ↔
      ((reRun frontPlusRE at0 t ≠ []) ∨ (reRun frontDashRE at0 t ≠ [])) := by
  rw [show reRun frontmatterRE at0 t =
    reRun frontPlusRE at0 t ++ reRun frontDashRE at0 t from rfl]
  simp [List.append_eq_nil]
  tauto

theorem frontPlus_at_false (t : Line) : reRun frontPlusRE false t = [] := by
  simp [frontPlusRE, reRun_seq_def, reRun_bol]

theorem reHas_front_false : ∀ s : Line,
    (reHas frontmatterRE false s = true) ↔
      ∃ u w : Line, s = u ++ ('-' :: '-' :: '-' :: w) ∧ w.all wsP = true
  | [] => by
    rw [show reHas frontmatterRE false [] = decide (reRun frontmatterRE false [] ≠ []) from rfl]
    rw [decide_eq_true_iff, frontRE_alt_ne]
    rw [frontPlus_at_false, reRun_frontDash_iff]
    constructor
    · rintro (h | ⟨w, hw, -⟩)
      · exact absurd rfl h
      · exact absurd hw (by simp)
    · rintro ⟨u, w, hw, -⟩
      exact absurd hw (by cases u <;> simp)
  | x :: s => by
    have ih := reHas_front_false s
    rw [show reHas frontmatterRE false (x :: s) =
      (decide (reRun frontmatterRE false (x :: s) ≠ []) || reHas frontmatterRE false s)
      from rfl]
    rw [Bool.or_eq_true, decide_eq_true_iff, frontRE_alt_ne,
      frontPlus_at_false, reRun_frontDash_iff, ih]
    constructor
    · rintro ((h | ⟨w, hw, hall⟩) | ⟨u, w, hw, hall⟩)
      · exact absurd rfl h
      · exact ⟨[], w, hw, hall⟩
      · exact ⟨x :: u, w, by rw [hw]; rfl, hall⟩
    · rintro ⟨u, w, hw, hall⟩
      cases u with
      | nil => exact Or.inl (Or.inr ⟨w, by simpa using hw, hall⟩)
      | cons y u =>
        simp only [List.cons_append, List.cons.injEq] at hw
        exact Or.inr ⟨u, w, hw.2, hall⟩

theorem startsW_dropWhile_iff_exists (c0 : Char) (pat : Line) (p : Char → Bool)
    (hc0 : p c0 = false) (l : Line) :
    startsW (c0 :: pat) (l.dropWhile p) = true ↔
      ∃ w u, l = w ++ (c0 :: pat ++ u) ∧ w.all p = true := by
  constructor
  · intro h
    obtain ⟨r, hr⟩ := (startsW_iff_append _ _).mp h
    refine ⟨l.takeWhile p, r, ?_, ?_⟩
    · conv_lhs => rw [← List.takeWhile_append_dropWhile (p := p) (l := l)]
      rw [hr]
    · exact List.all_eq_true.mpr (fun x hx => List.mem_takeWhile_imp hx)
  · rintro ⟨w, u, rfl, hall⟩
    have hd := dropWhile_all_prefix p w c0 (pat ++ u) hall hc0
    rw [show (w ++ (c0 :: pat ++ u) : Line) = w ++ c0 :: (pat ++ u) from rfl] at *
    rw [hd]
    exact (startsW_iff_append _ _).mpr ⟨u, rfl⟩

theorem reHas_front_true (l : Line) :
    (reHas frontmatterRE true l = true) ↔
      ((startsW ['+', '+', '+'] (l.dropWhile wsP) = true) ∨
        ∃ u w : Line, l = u ++ ('-' :: '-' :: '-' :: w) ∧ w.all wsP = true) := by
  cases l with
  | nil =>
    rw [show reHas frontmatterRE true [] = decide (reRun frontmatterRE true [] ≠ []) from rfl]
    rw [decide_eq_true_iff, frontRE_alt_ne, reRun_frontPlus_iff, reRun_frontDash_iff]
    constructor
    · rintro (h | ⟨w, hw, -⟩)
      · exact Or.inl h
      · exact absurd hw (by simp)
    · rintro (h | ⟨u, w, hw, -⟩)
      · exact Or.inl h
      · exact absurd hw (by cases u <;> simp)
  | cons x s =>
    rw [show reHas frontmatterRE true (x :: s) =
      (decide (reRun frontmatterRE true (x :: s) ≠ []) || reHas frontmatterRE false s)
      from rfl]
    rw [Bool.or_eq_true, decide_eq_true_iff, frontRE_alt_ne,
      reRun_frontPlus_iff, reRun_frontDash_iff, reHas_front_false s]
    constructor
    · rintro ((h | ⟨w, hw, hall⟩) | ⟨u, w, hw, hall⟩)
      · exact Or.inl h
      · exact Or.inr ⟨[], w, hw, hall⟩
      · exact Or.inr ⟨x :: u, w, by rw [hw]; rfl, hall⟩
    · rintro (h | ⟨u, w, hw, hall⟩)
      · exact Or.inl (Or.inl h)
      · cases u with
        | nil => exact Or.inl (Or.inr ⟨w, by simpa using hw, hall⟩)
        | cons y u =>
          simp only [List.cons_append, List.cons.injEq] at hw
          exact Or.inr ⟨u, w, hw.2, hall⟩

/-- C10: isFrontmatterDelim accepts exactly the lines that either start
with optional whitespace followed by three pluses, or end in three dashes
followed only by whitespace, regardless of any text preceding the dashes,
because the alternation in the pattern binds the bol anchor and the
whitespace prefix to the plus alternative and the whitespace suffix and eol
anchor to the dash alternative; consequently, in the Metadata state any
line ending in three dashes (plus optional trailing whitespace) closes the
front matter and moves to the Summary state. -/
theorem isFrontmatterDelim_alternation (l : Line) :
    (isFrontmatterDelim l = true ↔
      ((∃ w u, l = w ++ ('+' :: '+' :: '+' :: u) ∧ w.all wsP = true) ∨
        ∃ u w, l = u ++ ('-' :: '-' :: '-' :: w) ∧ w.all wsP = true)) ∧
    ∀ u w, l = u ++ ('-' :: '-' :: '-' :: w) → w.all wsP = true →
      (stepMain Status.frontmatter l).1 = Status.summary := by
  have hiff : isFrontmatterDelim l = true ↔
      ((∃ w u, l = w ++ ('+' :: '+' :: '+' :: u) ∧ w.all wsP = true) ∨
        ∃ u w, l = u ++ ('-' :: '-' :: '-' :: w) ∧ w.all wsP = true) := by
    rw [show isFrontmatterDelim l = reHas frontmatterRE true l from rfl,
      reHas_front_true l,
      startsW_dropWhile_iff_exists '+' ['+', '+'] wsP (by decide) l]
    exact Iff.rfl
  refine ⟨hiff, fun u w hl hall => ?_⟩
  have hd : isFrontmatterDelim l = true := hiff.mpr (Or.inr ⟨u, w, hl, hall⟩)
  simp [stepMain, hd]

theorem isFrontmatterDelim_alternation_witness :
    isFrontmatterDelim ("x ---").data = true ∧
    (stepMain Status.frontmatter ("x ---").data).1 = Status.summary :=
  ⟨(isFrontmatterDelim_alternation ("x ---").data).1.mpr
      (Or.inr ⟨("x ").data, [], by decide, by decide⟩),
    (isFrontmatterDelim_alternation ("x ---").data).2 ("x ").data [] (by decide) (by decide)⟩

end Gotohugo
